import Mathlib

/-!
Verification development for the `gors` HTTP client helper.

The Go source (`gors.go`) is shallowly embedded below.  Go strings are byte
sequences; for the ASCII data manipulated by this library we model them as
`List Char`.  The pieces of the Go standard library that the source calls and
whose behaviour the specification's claims depend on (`path.Clean`,
`path.Join`, `net/url` parsing, query `Values`, header maps) are translated
from the standard library sources as well, since they are part of the
program's semantics.  External effects (the network, the JSON codec) are
modelled as explicit oracle parameters.
-/

namespace Gors

/-- Go strings modelled as lists of characters (bytes). -/
abbrev GoStr := List Char

/-- Go errors are modelled by their message strings. -/
abbrev GoError := GoStr

/-! ## Basic string helpers (strings.Split / strings.Cut / strings.LastIndex) -/

/-- Model of `strings.Split(s, string(c))`: split on every occurrence of `c`. -/
def splitOnChar (c : Char) : GoStr → List GoStr
  | [] => [[]]
  | x :: xs =>
    match splitOnChar c xs with
    | [] => [[]]
    | s :: ss => if x = c then [] :: s :: ss else (x :: s) :: ss

/-- Model of `strings.Cut(s, string(c))`: `(before, after, found)` at the
first occurrence of `c`. -/
def cutChar (c : Char) : GoStr → GoStr × GoStr × Bool
  | [] => ([], [], false)
  | x :: xs =>
    if x = c then ([], xs, true)
    else
      let r := cutChar c xs
      (x :: r.1, r.2.1, r.2.2)

/-- Cut at the last occurrence of `c` (used where Go uses
`strings.LastIndex`): `some (before, after)` when `c` occurs. -/
def cutLastChar (c : Char) (s : GoStr) : Option (GoStr × GoStr) :=
  match cutChar c s.reverse with
  | (bR, aR, true) => some (aR.reverse, bR.reverse)
  | (_, _, false) => none

/-- Join a list of segments with a single separator character between them
(the writing pattern Go's `path.Clean` and `url.Values.Encode` use). -/
def joinSep (sep : Char) : List GoStr → GoStr
  | [] => []
  | [x] => x
  | x :: y :: rest => x ++ sep :: joinSep sep (y :: rest)

/-! ## Model of Go `path.Clean` and `path.Join`

`path.Clean` processes the `'/'`-separated segments of the path with a
backtracking output buffer; we model the buffer as a stack (`stk`, most
recently written segment first).  A `".."` pops a poppable segment, is
dropped when the path is rooted and nothing is poppable, and is kept
otherwise. -/

def cleanSegs (rooted : Bool) : List GoStr → List GoStr → List GoStr
  | stk, [] => stk.reverse
  | [], s :: rest =>
    if s = [] ∨ s = ['.'] then cleanSegs rooted [] rest
    else if s = ['.', '.'] then
      if rooted then cleanSegs rooted [] rest else cleanSegs rooted [s] rest
    else cleanSegs rooted [s] rest
  | t :: stk', s :: rest =>
    if s = [] ∨ s = ['.'] then cleanSegs rooted (t :: stk') rest
    else if s = ['.', '.'] then
      if t = ['.', '.'] then cleanSegs rooted (s :: t :: stk') rest
      else cleanSegs rooted stk' rest
    else cleanSegs rooted (s :: t :: stk') rest

/-- Whether a path is rooted (begins with a separator). -/
def rootedOf (p : GoStr) : Bool := p.head? == some '/'

/-- Model of Go `path.Clean`. -/
def clean (p : GoStr) : GoStr :=
  if p = [] then ['.']
  else
    match cleanSegs (rootedOf p) [] (splitOnChar '/' p) with
    | [] => if rootedOf p then ['/'] else ['.']
    | x :: xs => if rootedOf p then '/' :: joinSep '/' (x :: xs) else joinSep '/' (x :: xs)

/-- Model of Go `path.Join` for two elements: empty elements are skipped,
the remainder is concatenated with `'/'` and cleaned; all-empty input gives
the empty string. -/
def goJoin (a b : GoStr) : GoStr :=
  if a = [] ∧ b = [] then []
  else if a = [] then clean b
  else if b = [] then clean a
  else clean (a ++ '/' :: b)

/-! ### Trailing-separator facts about `clean` -/

theorem splitOnChar_no_sep (c : Char) (l : GoStr) : ∀ s ∈ splitOnChar c l, c ∉ s := by
  induction l with
  | nil => simp [splitOnChar]
  | cons x xs ih =>
    intro s hs
    simp only [splitOnChar] at hs
    cases hsplit : splitOnChar c xs with
    | nil => rw [hsplit] at hs; simp at hs; simp [hs]
    | cons t ts =>
      rw [hsplit] at hs ih
      by_cases hx : x = c
      · simp [hx] at hs
        rcases hs with h | h | h
        · simp [h]
        · exact h ▸ ih t (by simp)
        · exact ih s (by simp [h])
      · simp [hx] at hs
        rcases hs with h | h
        · subst h
          intro hmem
          rcases List.mem_cons.mp hmem with h' | h'
          · exact hx h'.symm
          · exact ih t (by simp) h'
        · exact ih s (by simp [h])

theorem cleanSegs_mem (rooted : Bool) (segs : List GoStr) :
    ∀ stk, (∀ x ∈ stk, x ≠ [] ∧ '/' ∉ x) → (∀ s ∈ segs, '/' ∉ s) →
    ∀ x ∈ cleanSegs rooted stk segs, x ≠ [] ∧ '/' ∉ x := by
  induction segs with
  | nil =>
    intro stk hstk _ x hx
    cases stk with
    | nil => simp [cleanSegs] at hx
    | cons t stk' =>
      simp only [cleanSegs] at hx
      exact hstk x (List.mem_reverse.mp hx)
  | cons s rest ih =>
    intro stk hstk hsegs x hx
    have hrest : ∀ t ∈ rest, '/' ∉ t := fun t ht => hsegs t (by simp [ht])
    have hs : '/' ∉ s := hsegs s (by simp)
    cases stk with
    | nil =>
      simp only [cleanSegs] at hx
      by_cases h1 : s = [] ∨ s = ['.']
      · rw [if_pos h1] at hx
        exact ih [] (by simp) hrest x hx
      · rw [if_neg h1] at hx
        by_cases h2 : s = ['.', '.']
        · rw [if_pos h2] at hx
          cases rooted with
          | true => simp at hx; exact ih [] (by simp) hrest x hx
          | false =>
            simp at hx
            refine ih [s] ?_ hrest x hx
            intro y hy
            simp at hy
            subst hy
            exact ⟨by simp [h2], hs⟩
        · rw [if_neg h2] at hx
          refine ih [s] ?_ hrest x hx
          intro y hy
          simp at hy
          subst hy
          exact ⟨fun he => h1 (Or.inl he), hs⟩
    | cons t stk' =>
      simp only [cleanSegs] at hx
      by_cases h1 : s = [] ∨ s = ['.']
      · rw [if_pos h1] at hx
        exact ih (t :: stk') hstk hrest x hx
      · rw [if_neg h1] at hx
        by_cases h2 : s = ['.', '.']
        · rw [if_pos h2] at hx
          by_cases ht : t = ['.', '.']
          · rw [if_pos ht] at hx
            refine ih (s :: t :: stk') ?_ hrest x hx
            intro y hy
            rcases List.mem_cons.mp hy with h | h
            · subst h; exact ⟨by simp [h2], hs⟩
            · exact hstk y h
          · rw [if_neg ht] at hx
            exact ih stk' (fun y hy => hstk y (by simp [hy])) hrest x hx
        · rw [if_neg h2] at hx
          refine ih (s :: t :: stk') ?_ hrest x hx
          intro y hy
          rcases List.mem_cons.mp hy with h | h
          · subst h; exact ⟨fun he => h1 (Or.inl he), hs⟩
          · exact hstk y h

theorem joinSep_ne_nil (x : GoStr) (xs : List GoStr) (hx : x ≠ []) :
    joinSep '/' (x :: xs) ≠ [] := by
  cases xs with
  | nil => simpa [joinSep] using hx
  | cons y ys => simp [joinSep]

theorem joinSep_getLast (xs : List GoStr) (hne : xs ≠ [])
    (h : ∀ x ∈ xs, x ≠ [] ∧ '/' ∉ x) : (joinSep '/' xs).getLast? ≠ some '/' := by
  induction xs with
  | nil => exact absurd rfl hne
  | cons x rest ih =>
    cases rest with
    | nil =>
      obtain ⟨hx, hsl⟩ := h x (by simp)
      simp only [joinSep]
      rw [List.getLast?_eq_getLast_of_ne_nil hx]
      intro hc
      have hm := List.getLast_mem hx
      rw [Option.some.inj hc] at hm
      exact hsl hm
    | cons y ys =>
      have hjoin : joinSep '/' (x :: y :: ys) = x ++ '/' :: joinSep '/' (y :: ys) := rfl
      rw [hjoin, List.getLast?_append_cons]
      obtain ⟨hy, _⟩ := h y (by simp)
      have hrest : joinSep '/' (y :: ys) ≠ [] := joinSep_ne_nil y ys hy
      rw [show ('/' :: joinSep '/' (y :: ys)) = ['/'] ++ joinSep '/' (y :: ys) from rfl,
        List.getLast?_append_of_ne_nil _ hrest]
      exact ih (by simp) (fun t ht => h t (by simp [ht]))

theorem clean_getLast (p : GoStr) (h : clean p ≠ ['/']) :
    (clean p).getLast? ≠ some '/' := by
  by_cases hp : p = []
  · simp [clean, hp]
  · have hsegs := splitOnChar_no_sep '/' p
    have hmem := cleanSegs_mem (rootedOf p) (splitOnChar '/' p) [] (by simp) hsegs
    rw [clean, if_neg hp] at h ⊢
    cases hout : cleanSegs (rootedOf p) [] (splitOnChar '/' p) with
    | nil =>
      simp only [hout] at h ⊢
      cases hr : rootedOf p with
      | false => simp [hr]
      | true => rw [hr] at h; simp at h
    | cons x xs =>
      rw [hout] at hmem
      simp only [hout] at h ⊢
      have hj := joinSep_getLast (x :: xs) (by simp) hmem
      cases hr : rootedOf p with
      | false => simpa [hr] using hj
      | true =>
        simp only [hr, if_pos]
        obtain ⟨hx, _⟩ := hmem x (by simp)
        have hjx : joinSep '/' (x :: xs) ≠ [] := joinSep_ne_nil x xs hx
        rw [show ('/' :: joinSep '/' (x :: xs)) = ['/'] ++ joinSep '/' (x :: xs) from rfl,
          List.getLast?_append_of_ne_nil _ hjx]
        exact hj

theorem goJoin_getLast (a b : GoStr) (h : goJoin a b ≠ ['/']) :
    (goJoin a b).getLast? ≠ some '/' := by
  rw [goJoin] at h ⊢
  by_cases hab : a = [] ∧ b = []
  · simp [hab]
  · rw [if_neg hab] at h ⊢
    by_cases ha : a = []
    · rw [if_pos ha] at h ⊢; exact clean_getLast b h
    · rw [if_neg ha] at h ⊢
      by_cases hb : b = []
      · rw [if_pos hb] at h ⊢; exact clean_getLast a h
      · rw [if_neg hb] at h ⊢; exact clean_getLast _ h

/-! ## Model of `net/url` parsing

Translated from Go `net/url` (`Parse`, `getScheme`, `parseAuthority`,
`parseHost`, `unescape`, `shouldEscape`, `validUserinfo`).  `none` models a
parse error (in Go: a non-nil error and a nil `*URL`).  Two bookkeeping
simplifications, neither observable here: `RawPath`/`ForceQuery` (which only
affect re-serialisation) are not stored, and the RFC 6874 zone branch of
`parseHost` (bracketed hosts containing `%25`) is folded into plain
host-mode unescaping, which accepts the same inputs except for zone
identifiers carrying `%`-escaped ASCII bytes, which it rejects as a host
would. -/

/-- Control bytes make `url.Parse` fail (`stringContainsCTLByte`). -/
def isCTL (c : Char) : Bool := c.toNat < 32 || c.toNat == 127

def containsCTLByte (s : GoStr) : Bool := s.any isCTL

def ishex (c : Char) : Bool :=
  ('0' ≤ c && c ≤ '9') || ('a' ≤ c && c ≤ 'f') || ('A' ≤ c && c ≤ 'F')

def unhex (c : Char) : Nat :=
  if '0' ≤ c && c ≤ '9' then c.toNat - '0'.toNat
  else if 'a' ≤ c && c ≤ 'f' then c.toNat - 'a'.toNat + 10
  else if 'A' ≤ c && c ≤ 'F' then c.toNat - 'A'.toNat + 10
  else 0

/-- Escaping modes of `net/url` that differ in their validity checks and
their treatment of `'+'` (`user` is Go's `encodeUserPassword`). -/
inductive EncMode
  | path
  | host
  | query
  | frag
  | user
deriving DecidableEq

/-- Model of `net/url.shouldEscape` for `encodeHost`: alphanumerics, the
sub-delims `!$&'()*+,;=` (the quote and apostrophe written by code point),
`:[]<>"`, and the unreserved marks `-_.~` stay; every other ASCII byte must
be escaped in a host. -/
def shouldEscapeHost (c : Char) : Bool :=
  if c.isAlpha || c.isDigit then false
  else if c = '!' || c = '$' || c = '&' || c.toNat == 39 || c = '(' || c = ')'
      || c = '*' || c = '+' || c = ',' || c = ';' || c = '=' || c = ':'
      || c = '[' || c = ']' || c = '<' || c = '>' || c.toNat == 34 then false
  else if c = '-' || c = '_' || c = '.' || c = '~' then false
  else true

/-- Model of `net/url.unescape`: percent-decoding; a malformed `%`-escape is
an error; in host mode a `%`-escape of an ASCII byte other than `%25` and
any literal ASCII byte that `shouldEscape` requires escaped are errors
(Go's `HostError`/`InvalidHostError`); `'+'` decodes to a space only in
query mode. -/
def unescapeGo (mode : EncMode) : GoStr → Option GoStr
  | [] => some []
  | '%' :: a :: b :: rest =>
    if ishex a && ishex b then
      if mode = EncMode.host ∧ unhex a < 8 ∧ ¬(a = '2' ∧ b = '5') then none
      else (unescapeGo mode rest).map (fun t => Char.ofNat (16 * unhex a + unhex b) :: t)
    else none
  | '%' :: _ => none
  | '+' :: rest =>
    (unescapeGo mode rest).map (fun t => (if mode = EncMode.query then ' ' else '+') :: t)
  | c :: rest =>
    if mode = EncMode.host ∧ c.toNat < 128 ∧ shouldEscapeHost c then none
    else (unescapeGo mode rest).map (fun t => c :: t)

/-- Scan of `getScheme`: `i` is the index reached, `s` the whole input.
Returns `none` for the "missing protocol scheme" error. -/
def getSchemeAux (s : GoStr) : Nat → GoStr → Option (GoStr × GoStr)
  | _, [] => some ([], s)
  | i, c :: rest =>
    if c.isAlpha then getSchemeAux s (i + 1) rest
    else if c.isDigit || c = '+' || c = '-' || c = '.' then
      if i = 0 then some ([], s) else getSchemeAux s (i + 1) rest
    else if c = ':' then
      if i = 0 then none else some ((s.take i).map Char.toLower, rest)
    else some ([], s)

/-- Model of `net/url.getScheme`. -/
def getSchemeGo (s : GoStr) : Option (GoStr × GoStr) := getSchemeAux s 0 s

/-- Model of `net/url.validOptionalPort`. -/
def validOptionalPort (p : GoStr) : Bool :=
  match p with
  | [] => true
  | ':' :: rest => rest.all (fun c => '0' ≤ c && c ≤ '9')
  | _ => false

/-- Model of `net/url.parseHost`: bracketed hosts need a closing bracket,
an optional `:port` must be numeric, then the host is unescaped. -/
def parseHostGo (host : GoStr) : Option GoStr :=
  if host.head? = some '[' then
    match cutLastChar ']' host with
    | none => none
    | some (_, after) =>
      if validOptionalPort after then unescapeGo EncMode.host host else none
  else
    match cutLastChar ':' host with
    | none => unescapeGo EncMode.host host
    | some (_, after) =>
      if validOptionalPort (':' :: after) then unescapeGo EncMode.host host else none

/-- Characters `net/url.validUserinfo` accepts: alphanumerics and
`-._:~!$&'()*+,;=%@` (the apostrophe written by code point). -/
def validUserinfoChar (c : Char) : Bool :=
  c.isAlpha || c.isDigit ||
    c = '-' || c = '.' || c = '_' || c = ':' || c = '~' || c = '!' || c = '$' ||
    c = '&' || c.toNat == 39 || c = '(' || c = ')' || c = '*' || c = '+' ||
    c = ',' || c = ';' || c = '=' || c = '%' || c = '@'

/-- Model of `net/url.parseAuthority`: the userinfo before the last `'@'`
must pass `validUserinfo` and (split at the first `':'` into user and
password) unescape cleanly; the rest is the host.  Returns the parsed host
(the user value itself is never read by this program). -/
def parseAuthorityGo (authority : GoStr) : Option GoStr :=
  match cutLastChar '@' authority with
  | none => parseHostGo authority
  | some (userinfo, hostPart) =>
    match parseHostGo hostPart with
    | none => none
    | some host =>
      if userinfo.all validUserinfoChar then
        if userinfo.contains ':' then
          let sp := cutChar ':' userinfo
          match unescapeGo EncMode.user sp.1, unescapeGo EncMode.user sp.2.1 with
          | some _, some _ => some host
          | _, _ => none
        else
          match unescapeGo EncMode.user userinfo with
          | some _ => some host
          | none => none
      else none

/-- Model of Go `url.URL` (the fields this program touches).  `Opq` is the
field Go spells with the word for "not transparent". -/
structure URL where
  Scheme : GoStr
  Opq : GoStr
  Host : GoStr
  Path : GoStr
  RawQuery : GoStr
  Fragment : GoStr
deriving DecidableEq

def emptyURL : URL := ⟨[], [], [], [], [], []⟩

/-- Model of `net/url.parse` with `viaRequest = false`. -/
def parseGo (rawURL : GoStr) : Option URL :=
  if containsCTLByte rawURL then none
  else if rawURL = ['*'] then some { emptyURL with Path := ['*'] }
  else
    match getSchemeGo rawURL with
    | none => none
    | some (scheme, rest0) =>
      let qr :=
        if rest0.getLast? = some '?' && !(rest0.dropLast.contains '?') then
          (rest0.dropLast, ([] : GoStr))
        else
          let cq := cutChar '?' rest0
          (cq.1, cq.2.1)
      let rest := qr.1
      let rawQuery := qr.2
      if ¬ (List.isPrefixOf ['/'] rest) then
        if scheme ≠ [] then
          some { emptyURL with Scheme := scheme, Opq := rest, RawQuery := rawQuery }
        else
          if ((cutChar '/' rest).1).contains ':' then none
          else
            match unescapeGo EncMode.path rest with
            | none => none
            | some p => some { emptyURL with Path := p, RawQuery := rawQuery }
      else
        if (scheme ≠ [] ∨ ¬ List.isPrefixOf ['/', '/', '/'] rest)
            ∧ List.isPrefixOf ['/', '/'] rest then
          let ar := cutChar '/' (rest.drop 2)
          let authority := ar.1
          let rest' : GoStr := if ar.2.2 then '/' :: ar.2.1 else []
          match parseAuthorityGo authority with
          | none => none
          | some host =>
            match unescapeGo EncMode.path rest' with
            | none => none
            | some p =>
              some { emptyURL with
                Scheme := scheme, Host := host, Path := p, RawQuery := rawQuery }
        else
          match unescapeGo EncMode.path rest with
          | none => none
          | some p =>
            some { emptyURL with Scheme := scheme, Path := p, RawQuery := rawQuery }

/-- Model of `net/url.Parse`: the fragment is cut off first, the rest parsed,
then the fragment unescaped. -/
def urlParse (rawURL : GoStr) : Option URL :=
  let fr := cutChar '#' rawURL
  match parseGo fr.1 with
  | none => none
  | some u =>
    if fr.2.2 then
      match unescapeGo EncMode.frag fr.2.1 with
      | none => none
      | some f => some { u with Fragment := f }
    else some u

/-! ## Model of `url.Values` (query maps) -/

/-- `url.Values` is a map from key to a list of values; modelled as an
association list with unique keys in construction order. -/
abbrev Values := List (GoStr × List GoStr)

/-- Model of `Values.Add`: append the value to the key's list, creating the
key when absent. -/
def valuesAdd (v : Values) (k val : GoStr) : Values :=
  match v with
  | [] => [(k, [val])]
  | (k', vs) :: rest =>
    if k' = k then (k', vs ++ [val]) :: rest else (k', vs) :: valuesAdd rest k val

/-- One segment of `parseQuery`: segments containing `';'` or failing to
unescape are skipped (the error is recorded but parsing continues; the
caller `Request.URL.Query()` drops the error). -/
def parseQuerySeg (m : Values) (seg : GoStr) : Values :=
  if seg.contains ';' then m
  else if seg = [] then m
  else
    let kv := cutChar '=' seg
    match unescapeGo EncMode.query kv.1, unescapeGo EncMode.query kv.2.1 with
    | some k, some v => valuesAdd m k v
    | _, _ => m

/-- Model of `net/url.ParseQuery` with the error dropped, as in
`Request.URL.Query()`. -/
def parseQueryGo (s : GoStr) : Values :=
  (splitOnChar '&' s).foldl parseQuerySeg []

/-- Characters `queryEscape` leaves alone (RFC 3986 unreserved). -/
def isUnreserved (c : Char) : Bool :=
  c.isAlpha || c.isDigit || c = '-' || c = '_' || c = '.' || c = '~'

def hexDigitUpper (n : Nat) : Char :=
  if n < 10 then Char.ofNat ('0'.toNat + n) else Char.ofNat ('A'.toNat + n - 10)

/-- Model of `url.QueryEscape` on one component. -/
def queryEscape (s : GoStr) : GoStr :=
  s.flatMap fun c =>
    if isUnreserved c then [c]
    else if c = ' ' then ['+']
    else ['%', hexDigitUpper (c.toNat / 16 % 16), hexDigitUpper (c.toNat % 16)]

/-- Lexicographic byte order used by `Values.Encode` when sorting keys. -/
def lexLe : GoStr → GoStr → Bool
  | [], _ => true
  | _ :: _, [] => false
  | x :: xs, y :: ys => if x = y then lexLe xs ys else decide (x < y)

def insertByKey (p : GoStr × List GoStr) : Values → Values
  | [] => [p]
  | q :: rest => if lexLe p.1 q.1 then p :: q :: rest else q :: insertByKey p rest

def sortByKey : Values → Values
  | [] => []
  | p :: rest => insertByKey p (sortByKey rest)

/-- Model of `url.Values.Encode`: keys sorted, each value escaped as
`k=v`, all joined with `'&'`. -/
def valuesEncode (v : Values) : GoStr :=
  joinSep '&'
    ((sortByKey v).flatMap fun kv =>
      kv.2.map fun val => queryEscape kv.1 ++ '=' :: queryEscape val)

/-! ## Bits of `net/http` the dispatch path relies on -/

/-- Token characters of HTTP (`httpguts.IsTokenRune`). -/
def isTokenChar (c : Char) : Bool :=
  c.isAlpha || c.isDigit ||
    c = '!' || c = '#' || c = '$' || c = '%' || c = '&' || c.toNat == 39 ||
    c = '*' || c = '+' || c = '-' || c = '.' || c = '^' || c = '_' ||
    c.toNat == 96 || c = '|' || c = '~'

/-- Model of `net/http.validMethod`. -/
def validMethod (m : GoStr) : Bool := !m.isEmpty && m.all isTokenChar

/-- Canonicalisation pass of `textproto.CanonicalMIMEHeaderKey`: uppercase
after a start or a dash, lowercase otherwise. -/
def canonAux : Bool → GoStr → GoStr
  | _, [] => []
  | up, c :: rest => (if up then c.toUpper else c.toLower) :: canonAux (c = '-') rest

/-- Model of `textproto.CanonicalMIMEHeaderKey`: keys with non-token bytes
are returned unchanged. -/
def canonicalHeaderKey (k : GoStr) : GoStr :=
  if k.all isTokenChar then canonAux true k else k

/-- Upsert into an association list: the write `m[k] = v` of a Go map. -/
def upsertL : List (GoStr × GoStr) → GoStr → GoStr → List (GoStr × GoStr)
  | [], k, v => [(k, v)]
  | (k', v') :: rest, k, v =>
    if k' = k then (k, v) :: rest else (k', v') :: upsertL rest k v

/-- Lookup in an association list: the read `m[k]` of a Go map. -/
def lookupL : List (GoStr × GoStr) → GoStr → Option GoStr
  | [], _ => none
  | (k', v') :: rest, k => if k' = k then some v' else lookupL rest k

/-- Model of `http.Header.Set`: canonicalise the key, then replace. -/
def headerSet (h : List (GoStr × GoStr)) (k v : GoStr) : List (GoStr × GoStr) :=
  upsertL h (canonicalHeaderKey k) v

/-! ## Model of `context` -/

/-- A context carries an optional absolute deadline (nanoseconds). -/
structure Ctx where
  deadline : Option Nat
deriving DecidableEq

/-- Model of `context.Background()`. -/
def Ctx.background : Ctx := ⟨none⟩

/-- Model of `context.WithTimeout(parent, d)` started at time `now`:
`WithDeadline(parent, now+d)`, which keeps an earlier parent deadline. -/
def Ctx.withTimeout (parent : Ctx) (now d : Nat) : Ctx :=
  match parent.deadline with
  | none => ⟨some (now + d)⟩
  | some t => ⟨some (min t (now + d))⟩

/-! ## The `gors` data model (pure view)

`Request` mirrors `gors.Request`; the `Query` and `Headers` maps are
association lists here.  Aliasing behaviour of the Go maps is modelled
separately with an explicit heap further below. -/

structure Request where
  baseURL : GoStr
  Method : GoStr
  Path : GoStr
  Query : List (GoStr × GoStr)
  Body : GoStr
  Headers : List (GoStr × GoStr)
  Timeout : Nat
deriving DecidableEq

/-- Model of `Request.SetHeader` (values are already strings; Go formats
them with `fmt.Sprintf("%v")`, the identity on strings). -/
def Request.SetHeader (r : Request) (k v : GoStr) : Request :=
  { r with Headers := upsertL r.Headers k v }

/-- Model of `Request.SetQuery`. -/
def Request.SetQuery (r : Request) (k v : GoStr) : Request :=
  { r with Query := upsertL r.Query k v }

/-- Model of `Request.SetBody`. -/
def Request.SetBody (r : Request) (b : GoStr) : Request :=
  { r with Body := b }

/-- Model of `Request.SetJSONBody`: `json.Marshal` is the oracle
`marshal`; on error the request is untouched and the error returned; on
success the body is set and then `Content-Type` upserted. -/
def Request.SetJSONBody (marshal : α → Except GoError GoStr) (r : Request) (v : α) :
    Request × Option GoError :=
  match marshal v with
  | Except.error e => (r, some e)
  | Except.ok j =>
    (Request.SetHeader { r with Body := j } "Content-Type".data "application/json".data,
      none)

/-! ## Dispatch pipeline (`Request.SendWithCtx`, `Request.Send`)

The outcome distinguishes the run-time panic that `SendWithCtx` hits when
`url.Parse` fails (it discards the error and dereferences the nil `*URL`)
from an error return and from success. -/

inductive DispatchOut (ρ : Type) where
  | nilPanic
  | err (e : GoError)
  | ok (v : ρ)
deriving DecidableEq

/-- The outgoing `*http.Request` as far as this program shapes it. -/
structure OutReq where
  ctx : Ctx
  method : GoStr
  url : URL
  headers : List (GoStr × GoStr)
  body : GoStr
deriving DecidableEq

/-- The network (transport) oracle: `http.Client.Do`. -/
abbrev Net (ρ : Type) := Ctx → OutReq → Except GoError ρ

/-- The path the dispatched URL gets: `path.Join(apiURL.Path, r.Path)`,
then a trailing separator is re-appended when `r.Path` ends with one. -/
def builtPath (basePath p : GoStr) : GoStr :=
  let j := goJoin basePath p
  if p.getLast? = some '/' then j ++ ['/'] else j

/-- The query-merge loop of `SendWithCtx`: `q := req.URL.Query();
for k, v := range r.Query { q.Add(k, v) }`. -/
def applyQuery (base : Values) (q : List (GoStr × GoStr)) : Values :=
  q.foldl (fun m kv => valuesAdd m kv.1 kv.2) base

/-- URL construction and request building of `SendWithCtx`, up to the
network call.  `nilPanic` is the nil dereference `apiURL.Path` performs
when `url.Parse` rejected `baseURL`.  (`http.NewRequestWithContext`
re-parses `apiURL.String()`; for URLs produced here that round-trip is the
identity on the components used below and is omitted.) -/
def buildOutReq (r : Request) (ctx : Ctx) : DispatchOut OutReq :=
  match urlParse r.baseURL with
  | none => DispatchOut.nilPanic
  | some apiURL =>
    let u := { apiURL with Path := builtPath apiURL.Path r.Path }
    let m := if r.Method = [] then "GET".data else r.Method
    if validMethod m then
      let hdrs := r.Headers.foldl (fun hm kv => headerSet hm kv.1 kv.2) []
      let vals := applyQuery (parseQueryGo u.RawQuery) r.Query
      DispatchOut.ok
        { ctx := ctx, method := m, url := { u with RawQuery := valuesEncode vals },
          headers := hdrs, body := r.Body }
    else DispatchOut.err "net/http: invalid method".data

/-- Model of `Request.SendWithCtx`: build the outgoing request, then run it
against the network oracle. -/
def Request.SendWithCtx (net : Net ρ) (r : Request) (ctx : Ctx) : DispatchOut ρ :=
  match buildOutReq r ctx with
  | DispatchOut.nilPanic => DispatchOut.nilPanic
  | DispatchOut.err e => DispatchOut.err e
  | DispatchOut.ok req =>
    match net ctx req with
    | Except.error e => DispatchOut.err e
    | Except.ok res => DispatchOut.ok res

/-- Model of `Request.Send`: derive a context from the request timeout at
the moment dispatch begins (`now`), dispatch with it, and release the
signal (the deferred `cancel()`; the returned flag records that it ran). -/
def Request.Send (net : Net ρ) (r : Request) (now : Nat) : DispatchOut ρ × Bool :=
  let ctx := Ctx.withTimeout Ctx.background now r.Timeout
  (Request.SendWithCtx net r ctx, true)

/-! ## Heap model for the Go maps

Claims about aliasing (copy-on-create of default headers, dispatch not
consuming the maps, nil maps) need mutable maps to be first class: a heap
is a list of maps, a map value in a struct is an optional index into it
(`none` is Go's nil map). -/

abbrev HMap := List (GoStr × GoStr)

structure Heap where
  maps : List HMap
deriving DecidableEq

/-- Allocation (`make(map[string]string)`): a fresh empty map. -/
def Heap.alloc (h : Heap) : Heap × Nat := (⟨h.maps ++ [[]]⟩, h.maps.length)

/-- Read a map out of the heap. -/
def Heap.getMap (h : Heap) (i : Nat) : Option HMap := h.maps[i]?

/-- The write `m[k] = v` through reference `i`. -/
def Heap.setEntry (h : Heap) (i : Nat) (k v : GoStr) : Heap :=
  ⟨h.maps.modify (fun m => upsertL m k v) i⟩

/-- Model of `gors.Client`: base URL plus an optional reference to the
default-header map (`none` is the nil map of a zero-value Client). -/
structure Client where
  BaseURL : GoStr
  DefaultHeaders : Option Nat
deriving DecidableEq

/-- Model of `gors.NewClient`. -/
def NewClient (baseUrl : GoStr) : Client := ⟨baseUrl, none⟩

/-- Model of `Client.SetDefaultHeaders`: the client now references the
caller's map `h` (no heap write, no copy). -/
def Client.SetDefaultHeaders (c : Client) (h : Option Nat) : Client :=
  { c with DefaultHeaders := h }

/-- Model of `Client.AddDefaultHeader`: initialise the map if nil, then
upsert into it. -/
def Client.AddDefaultHeader (c : Client) (heap : Heap) (k v : GoStr) :
    Client × Heap :=
  match c.DefaultHeaders with
  | none =>
    let a := heap.alloc
    ({ c with DefaultHeaders := some a.2 }, a.1.setEntry a.2 k v)
  | some i => (c, heap.setEntry i k v)

/-- Model of `gors.Request` as it lives in the Go heap: the two maps are
references. -/
structure RequestRef where
  baseURL : GoStr
  Method : GoStr
  Path : GoStr
  QueryRef : Option Nat
  Body : GoStr
  HeadersRef : Option Nat
  Timeout : Nat
deriving DecidableEq

/-- Model of `Request.SetHeader` against the heap; writing through a nil
map reference is a Go panic, modelled as `none`. -/
def RequestRef.SetHeader (heap : Heap) (r : RequestRef) (k v : GoStr) : Option Heap :=
  match r.HeadersRef with
  | none => none
  | some i => some (heap.setEntry i k v)

/-- Model of `Request.SetQuery` against the heap. -/
def RequestRef.SetQuery (heap : Heap) (r : RequestRef) (k v : GoStr) : Option Heap :=
  match r.QueryRef with
  | none => none
  | some i => some (heap.setEntry i k v)

/-- Model of `Client.NewRequest`: allocate fresh `Query` and `Headers`
maps, set the 10-second default timeout, then copy every default header
into the new request with `SetHeader` (ranging over a nil map runs zero
iterations). -/
def Client.NewRequest (c : Client) (heap : Heap) (m p : GoStr) : Heap × RequestRef :=
  let a1 := heap.alloc
  let a2 := a1.1.alloc
  let defaults : HMap :=
    match c.DefaultHeaders with
    | none => []
    | some di => (a2.1.getMap di).getD []
  let h3 := defaults.foldl (fun hh kv => hh.setEntry a2.2 kv.1 kv.2) a2.1
  (h3,
    { baseURL := c.BaseURL, Method := m, Path := p, QueryRef := some a1.2,
      Body := [], HeadersRef := some a2.2, Timeout := 10000000000 })

/-- Dispatch against the heap: `SendWithCtx` reads the two maps (never
writes them) and runs the pure pipeline; the heap is threaded through and
returned. -/
def RequestRef.SendWithCtxHeap (net : Net ρ) (heap : Heap) (r : RequestRef)
    (ctx : Ctx) : DispatchOut ρ × Heap :=
  let hd := ((r.HeadersRef.bind heap.getMap).getD [], heap)
  let qd := ((r.QueryRef.bind hd.2.getMap).getD [], hd.2)
  let rp : Request :=
    { baseURL := r.baseURL, Method := r.Method, Path := r.Path, Query := qd.1,
      Body := r.Body, Headers := hd.1, Timeout := r.Timeout }
  (Request.SendWithCtx net rp ctx, qd.2)

/-! ## Model of `SendWithJSONResponse`

The network result, body reader and JSON decoder are oracles; the list of
actions records which effects on the response body were performed, in
order (`io.ReadAll`, the deferred `res.Body.Close()`, `json.Unmarshal`). -/

inductive JAction where
  | readBody
  | closeBody
  | unmarshalBody
deriving DecidableEq, BEq

/-- Model of `SendWithJSONResponse[T]`.  `sendRes` is the outcome of
`r.Send()` (which returns either `(nil, err)` or `(res, nil)`); `readAll`
is `io.ReadAll(res.Body)`; `um body j` is `json.Unmarshal(body, &j)`
returning the (possibly updated) value and an optional error; `zeroT` is
`var j T`.  The deferred `Close` is registered right after `ReadAll` and
runs on every later return path. -/
def sendWithJSONResponse (sendRes : Except GoError ρ)
    (readAll : ρ → Except GoError β) (um : β → τ → τ × Option GoError)
    (zeroT : τ) : (τ × Option ρ × Option GoError) × List JAction :=
  match sendRes with
  | Except.error e => ((zeroT, none, some e), [])
  | Except.ok res =>
    match readAll res with
    | Except.error e =>
      ((zeroT, some res, some e), [JAction.readBody, JAction.closeBody])
    | Except.ok body =>
      match um body zeroT with
      | (j, some e) =>
        ((j, some res, some e),
          [JAction.readBody, JAction.unmarshalBody, JAction.closeBody])
      | (j, none) =>
        ((j, some res, none),
          [JAction.readBody, JAction.unmarshalBody, JAction.closeBody])

/-! ## Lemmas about the query and header maps -/

theorem lookupL_upsertL_self (m : List (GoStr × GoStr)) (k v : GoStr) :
    lookupL (upsertL m k v) k = some v := by
  induction m with
  | nil => simp [upsertL, lookupL]
  | cons p rest ih =>
    obtain ⟨k0, v0⟩ := p
    by_cases h : k0 = k
    · simp [upsertL, lookupL, h]
    · simp [upsertL, lookupL, h, ih]

/-! ## Lemmas about the heap -/

theorem Heap.getMap_setEntry_ne (h : Heap) (i j : Nat) (k v : GoStr) (hij : i ≠ j) :
    (h.setEntry i k v).getMap j = h.getMap j := by
  simp [Heap.setEntry, Heap.getMap, List.getElem?_modify_ne _ _ hij]

theorem Heap.length_setEntry (h : Heap) (i : Nat) (k v : GoStr) :
    (h.setEntry i k v).maps.length = h.maps.length := by
  simp [Heap.setEntry]

theorem foldl_setEntry_getMap_ne (l : HMap) (i j : Nat) (hij : i ≠ j) :
    ∀ h : Heap, (l.foldl (fun hh kv => hh.setEntry i kv.1 kv.2) h).getMap j = h.getMap j := by
  induction l with
  | nil => intro h; rfl
  | cons kv rest ih =>
    intro h
    rw [List.foldl_cons, ih (h.setEntry i kv.1 kv.2), Heap.getMap_setEntry_ne _ _ _ _ _ hij]

theorem foldl_setEntry_length (l : HMap) (i : Nat) :
    ∀ h : Heap, (l.foldl (fun hh kv => hh.setEntry i kv.1 kv.2) h).maps.length = h.maps.length := by
  induction l with
  | nil => intro h; rfl
  | cons kv rest ih =>
    intro h
    rw [List.foldl_cons, ih (h.setEntry i kv.1 kv.2), Heap.length_setEntry]

theorem Heap.getMap_alloc_lt (h : Heap) (j : Nat) (hj : j < h.maps.length) :
    (h.alloc).1.getMap j = h.getMap j := by
  simp [Heap.alloc, Heap.getMap, List.getElem?_append_left hj]

/-! ## Claim analysis -/

/-- Ends with exactly one trailing separator: the last character is `'/'`
and the one before it (if any) is not. -/
def endsExactlyOneSlash (l : GoStr) : Prop :=
  l.getLast? = some '/' ∧ l.dropLast.getLast? ≠ some '/'

instance (l : GoStr) : Decidable (endsExactlyOneSlash l) := by
  unfold endsExactlyOneSlash
  infer_instance

/-- The parse of `http://x.com`. -/
def urlXCom : URL :=
  { Scheme := "http".data, Opq := [], Host := "x.com".data, Path := [],
    RawQuery := [], Fragment := [] }

/-- Fixture: base URL without trailing separator, request path `"/"`. -/
def reqSlash : Request :=
  { baseURL := "http://x.com".data, Method := "GET".data, Path := "/".data, Query := [],
    Body := [], Headers := [], Timeout := 10000000000 }

/-- The outgoing request `reqSlash` builds: its URL path is `"//"`. -/
def outSlash : OutReq :=
  { ctx := Ctx.background, method := "GET".data,
    url := { Scheme := "http".data, Opq := [], Host := "x.com".data,
             Path := "//".data, RawQuery := [], Fragment := [] },
    headers := [], body := [] }

/-- C2, counterexample: base URL `http://x.com` (path component empty, no
trailing separator) and request path `"/"` (a trailing separator) produce a
dispatched URL path of `"//"` — two trailing separators, not exactly one:
`path.Join` collapsed the path to `"/"` and the trailing-slash special case
appended another. -/
theorem c2_counterexample :
    urlParse reqSlash.baseURL = some urlXCom ∧
    urlXCom.Path.getLast? ≠ some '/' ∧
    reqSlash.Path.getLast? = some '/' ∧
    buildOutReq reqSlash Ctx.background = DispatchOut.ok outSlash ∧
    outSlash.url.Path = "//".data ∧
    ¬ endsExactlyOneSlash "//".data := by
  refine ⟨by decide, by decide, by decide, by decide, by decide, by decide⟩

/-- C2 (amended): for every base URL path without a trailing separator and
request path with one, the dispatched URL's path ends with exactly one
trailing separator — except when the clean join of the two collapses to the
root `"/"` (e.g. empty base path and path `"/"`), where it ends with two. -/
theorem c2_amended (basePath p : GoStr)
    (_hb : basePath.getLast? ≠ some '/') (hp : p.getLast? = some '/')
    (hj : goJoin basePath p ≠ ['/']) :
    endsExactlyOneSlash (builtPath basePath p) := by
  have hbuilt : builtPath basePath p = goJoin basePath p ++ ['/'] := by
    simp [builtPath, hp]
  rw [hbuilt]
  constructor
  · rw [List.getLast?_concat]
  · rw [List.dropLast_concat]
    exact goJoin_getLast _ _ hj

theorem c2_witness :
    ("/api".data : GoStr).getLast? ≠ some '/' ∧
    ("v1/".data : GoStr).getLast? = some '/' ∧
    goJoin "/api".data "v1/".data ≠ ['/'] ∧
    endsExactlyOneSlash (builtPath "/api".data "v1/".data) :=
  ⟨by decide, by decide, by decide,
    c2_amended "/api".data "v1/".data (by decide) (by decide) (by decide)⟩

/-- C3: if dispatch fails, the typed decode helper returns the zero value
of `T`, the (here nil) raw response and the dispatch error, with no body
action performed at all — in particular decode is never attempted; and if
the body is read but `json.Unmarshal` rejects it leaving the target at its
zero value (as for `{"x": "not-a-number"}` against a numeric field), the
helper returns the decode error, the zero value of `T` and the raw
response. -/
theorem c3_sendWithJSONResponse {ρ β τ : Type}
    (readAll : ρ → Except GoError β) (um : β → τ → τ × Option GoError)
    (zeroT : τ) (e e' : GoError) (res : ρ) (body : β)
    (hr : readAll res = Except.ok body) (hu : um body zeroT = (zeroT, some e')) :
    sendWithJSONResponse (Except.error e) readAll um zeroT = ((zeroT, none, some e), [])
    ∧ sendWithJSONResponse (Except.ok res) readAll um zeroT
        = ((zeroT, some res, some e'),
            [JAction.readBody, JAction.unmarshalBody, JAction.closeBody]) := by
  refine ⟨rfl, ?_⟩
  unfold sendWithJSONResponse
  simp only [hr, hu]

/-- Oracle fixtures for the decode-helper claims. -/
def readAllW : Nat → Except GoError GoStr := fun _ => Except.ok "not a number".data

def umW : GoStr → Nat → Nat × Option GoError :=
  fun _ j => (j, some "invalid character".data)

theorem c3_witness :
    readAllW 7 = Except.ok "not a number".data ∧ umW "not a number".data 0 = (0, some "invalid character".data) ∧
    sendWithJSONResponse (Except.error "boom".data) readAllW umW 0
      = ((0, none, some "boom".data), [])
    ∧ sendWithJSONResponse (Except.ok 7) readAllW umW 0
        = ((0, some 7, some "invalid character".data),
            [JAction.readBody, JAction.unmarshalBody, JAction.closeBody]) :=
  ⟨rfl, rfl,
    (c3_sendWithJSONResponse readAllW umW 0 "boom".data "invalid character".data 7
      "not a number".data rfl rfl).1,
    (c3_sendWithJSONResponse readAllW umW 0 "boom".data "invalid character".data 7
      "not a number".data rfl rfl).2⟩

/-- C8: on every exit path of the typed decode helper in which dispatch
produced a response — body-read failure, decode failure, and success — the
deferred `res.Body.Close()` runs exactly once. -/
theorem c8_close_once {ρ β τ : Type} (sendRes : Except GoError ρ)
    (readAll : ρ → Except GoError β) (um : β → τ → τ × Option GoError)
    (zeroT : τ) (res : ρ) (h : sendRes = Except.ok res) :
    ((sendWithJSONResponse sendRes readAll um zeroT).2).count JAction.closeBody = 1 := by
  subst h
  unfold sendWithJSONResponse
  cases hra : readAll res with
  | error e => simp only [hra]; decide
  | ok body =>
    rcases hum : um body zeroT with ⟨j, oe⟩
    cases oe <;> (simp only [hra, hum]; decide)

theorem c8_witness :
    (Except.ok 7 : Except GoError Nat) = Except.ok 7 ∧
    ((sendWithJSONResponse (Except.ok 7) readAllW umW 0).2).count JAction.closeBody = 1 :=
  ⟨rfl, c8_close_once (Except.ok 7) readAllW umW 0 7 rfl⟩

/-- C4: `Send` equals `SendWithCtx` under a context whose deadline is the
request's timeout measured from the moment dispatch begins (`now`), the
derived internal signal carries exactly that deadline and is released
(deferred `cancel()` runs, the `true` component) when dispatch returns;
the request timeout defaults to 10 seconds (`NewRequest`). -/
theorem c4_send_refinement {ρ : Type} (net : Net ρ) (r : Request) (now : Nat)
    (heap : Heap) (c : Client) (m p : GoStr) :
    Request.Send net r now = (Request.SendWithCtx net r ⟨some (now + r.Timeout)⟩, true)
    ∧ (Ctx.withTimeout Ctx.background now r.Timeout).deadline = some (now + r.Timeout)
    ∧ ((c.NewRequest heap m p).2).Timeout = 10000000000 :=
  ⟨rfl, rfl, rfl⟩

/-- C5: a request's header map is an independent copy of the client's
default headers taken at creation time: `NewRequest` allocates a fresh map
(at index `heap.maps.length + 1`, distinct from the client's map `di`);
`AddDefaultHeader` on the client afterwards leaves the request's map
unchanged, and `SetHeader` on the request writes only the request's map,
leaving the client's map unchanged (`SetDefaultHeaders` performs no heap
write at all — it only rebinds the client's reference). -/
theorem c5_header_independence (heap : Heap) (c : Client) (m p k v k' v' : GoStr)
    (di : Nat) (hc : c.DefaultHeaders = some di) (hlt : di < heap.maps.length) :
    ((c.NewRequest heap m p).2).HeadersRef = some (heap.maps.length + 1)
    ∧ ((c.AddDefaultHeader (c.NewRequest heap m p).1 k v).2).getMap (heap.maps.length + 1)
        = ((c.NewRequest heap m p).1).getMap (heap.maps.length + 1)
    ∧ RequestRef.SetHeader (c.NewRequest heap m p).1 (c.NewRequest heap m p).2 k' v'
        = some (((c.NewRequest heap m p).1).setEntry (heap.maps.length + 1) k' v')
    ∧ (((c.NewRequest heap m p).1).setEntry (heap.maps.length + 1) k' v').getMap di
        = ((c.NewRequest heap m p).1).getMap di := by
  have hne : di ≠ heap.maps.length + 1 := by omega
  have href : ((c.NewRequest heap m p).2).HeadersRef = some (heap.maps.length + 1) := by
    simp [Client.NewRequest, Heap.alloc]
  refine ⟨href, ?_, ?_, ?_⟩
  · rw [Client.AddDefaultHeader, hc]
    exact Heap.getMap_setEntry_ne _ _ _ _ _ hne
  · rw [RequestRef.SetHeader, href]
  · exact Heap.getMap_setEntry_ne _ _ _ _ _ (by omega)

/-- Witness fixtures: a heap holding one default-header map, referenced by
the client. -/
def heapW : Heap := ⟨[[("Authorization".data, "Bearer t".data)]]⟩

def clientW : Client := { BaseURL := "http://x.com".data, DefaultHeaders := some 0 }

theorem c5_witness :
    ((clientW.NewRequest heapW "GET".data "/a".data).2).HeadersRef
        = some (heapW.maps.length + 1)
    ∧ ((clientW.AddDefaultHeader (clientW.NewRequest heapW "GET".data "/a".data).1
          "K".data "V".data).2).getMap (heapW.maps.length + 1)
        = ((clientW.NewRequest heapW "GET".data "/a".data).1).getMap (heapW.maps.length + 1)
    ∧ RequestRef.SetHeader (clientW.NewRequest heapW "GET".data "/a".data).1
          (clientW.NewRequest heapW "GET".data "/a".data).2 "K2".data "V2".data
        = some (((clientW.NewRequest heapW "GET".data "/a".data).1).setEntry
            (heapW.maps.length + 1) "K2".data "V2".data)
    ∧ (((clientW.NewRequest heapW "GET".data "/a".data).1).setEntry
          (heapW.maps.length + 1) "K2".data "V2".data).getMap 0
        = ((clientW.NewRequest heapW "GET".data "/a".data).1).getMap 0 :=
  c5_header_independence heapW clientW "GET".data "/a".data "K".data "V".data
    "K2".data "V2".data 0 rfl (by decide)

/-- C6: `SetJSONBody` returns an error exactly when marshaling fails (and
then leaves the request untouched); on success the body is the JSON
encoding, the `Content-Type` header equals `application/json` whatever was
stored there before, and decoding the body with a codec that inverts the
encoder on this value yields the value back. -/
theorem c6_setJSONBody {α : Type} (marshal : α → Except GoError GoStr)
    (um : GoStr → Except GoError α) (r : Request) (v : α) (j : GoStr) (e : GoError) :
    (marshal v = Except.error e → Request.SetJSONBody marshal r v = (r, some e))
    ∧ (marshal v = Except.ok j → um j = Except.ok v →
        (Request.SetJSONBody marshal r v).2 = none
        ∧ ((Request.SetJSONBody marshal r v).1).Body = j
        ∧ lookupL ((Request.SetJSONBody marshal r v).1).Headers "Content-Type".data
            = some "application/json".data
        ∧ um ((Request.SetJSONBody marshal r v).1).Body = Except.ok v) := by
  constructor
  · intro h
    unfold Request.SetJSONBody
    rw [h]
  · intro hj hv
    unfold Request.SetJSONBody
    rw [hj]
    exact ⟨rfl, rfl, lookupL_upsertL_self _ _ _, hv⟩

/-- Codec fixtures for the C6 witness. -/
def marshalW : Bool → Except GoError GoStr :=
  fun b => Except.ok (if b then "true".data else "false".data)

def umBoolW : GoStr → Except GoError Bool :=
  fun s =>
    if s = "true".data then Except.ok true
    else if s = "false".data then Except.ok false
    else Except.error "json: cannot unmarshal".data

/-- Fixture: a request that already carries a different `Content-Type`. -/
def reqCT : Request :=
  { baseURL := "http://x.com".data, Method := "POST".data, Path := "/items".data,
    Query := [], Body := [], Headers := [("Content-Type".data, "text/plain".data)],
    Timeout := 10000000000 }

theorem c6_witness :
    marshalW true = Except.ok "true".data ∧ umBoolW "true".data = Except.ok true ∧
    ((Request.SetJSONBody marshalW reqCT true).2 = none
      ∧ ((Request.SetJSONBody marshalW reqCT true).1).Body = "true".data
      ∧ lookupL ((Request.SetJSONBody marshalW reqCT true).1).Headers "Content-Type".data
          = some "application/json".data
      ∧ umBoolW ((Request.SetJSONBody marshalW reqCT true).1).Body = Except.ok true) :=
  ⟨rfl, rfl, (c6_setJSONBody marshalW umBoolW reqCT true "true".data []).2 rfl rfl⟩

/-- C9: dispatching through the heap leaves the heap — and with it every
field and map of the request — unchanged, so a second dispatch of the same
request reads the same state and produces the same outcome. -/
theorem c9_dispatch_frame {ρ : Type} (net : Net ρ) (heap : Heap) (r : RequestRef)
    (ctx : Ctx) :
    (RequestRef.SendWithCtxHeap net heap r ctx).2 = heap
    ∧ RequestRef.SendWithCtxHeap net ((RequestRef.SendWithCtxHeap net heap r ctx).2) r ctx
        = RequestRef.SendWithCtxHeap net heap r ctx :=
  ⟨rfl, rfl⟩

/-- C10: every request built by `NewRequest` — even from a client whose
default-header map is nil, as after `NewClient` — has freshly allocated,
non-nil `Query` and `Headers` maps, so `SetHeader` and `SetQuery` on it
always succeed (never the nil-map panic, which is the `none` outcome of
the heap model). -/
theorem c10_maps_initialized (heap : Heap) (c : Client) (m p k1 v1 k2 v2 : GoStr) :
    ((c.NewRequest heap m p).2).QueryRef = some heap.maps.length
    ∧ ((c.NewRequest heap m p).2).HeadersRef = some (heap.maps.length + 1)
    ∧ (((c.NewRequest heap m p).1).getMap heap.maps.length).isSome = true
    ∧ (((c.NewRequest heap m p).1).getMap (heap.maps.length + 1)).isSome = true
    ∧ (RequestRef.SetHeader (c.NewRequest heap m p).1 (c.NewRequest heap m p).2 k1 v1).isSome
        = true
    ∧ (RequestRef.SetQuery (c.NewRequest heap m p).1 (c.NewRequest heap m p).2 k2 v2).isSome
        = true := by
  have href : ((c.NewRequest heap m p).2).HeadersRef = some (heap.maps.length + 1) := by
    simp [Client.NewRequest, Heap.alloc]
  have hqref : ((c.NewRequest heap m p).2).QueryRef = some heap.maps.length := rfl
  have hlen : ((c.NewRequest heap m p).1).maps.length = heap.maps.length + 2 := by
    simp [Client.NewRequest, Heap.alloc, foldl_setEntry_length]
  refine ⟨hqref, href, ?_, ?_, ?_, ?_⟩
  · rw [Heap.getMap, List.getElem?_eq_getElem (by omega)]
    rfl
  · rw [Heap.getMap, List.getElem?_eq_getElem (by omega)]
    rfl
  · rw [RequestRef.SetHeader, href]
    rfl
  · rw [RequestRef.SetQuery, hqref]
    rfl

end Gors
